import Mathlib

/-!
Shallow embedding of `src/scales/__init__.py` (module `scales`): musical
scales built from an origin frequency and interval ratios in cents.

Sequences of floats (numpy 1-d arrays) are modelled as `List ℝ`;
`2 ** x` on floats is `Real.rpow`, `np.log2` is `Real.logb 2`.
Python exceptions (numpy `IndexError`) are modelled with `Option`;
`ValueError` from the `Scale` constructor with `Except String`.
For the aliasing behaviour of `copy()` / `set_note` a small store model
(`Store`, `ScaleObj`) makes the numpy arrays addressable, since
`np.array(notes)` copies its argument into a fresh array.
-/

namespace Scales

/-- Running cumulative product with accumulator `acc`, mirroring
`np.cumprod`: element `i` of the result is `acc` times the product of the
first `i+1` elements of the input. -/
def cumprodAux (acc : ℝ) : List ℝ → List ℝ
  | [] => []
  | x :: xs => (acc * x) :: cumprodAux (acc * x) xs

/-- Model of `np.cumprod`. -/
def cumprod (l : List ℝ) : List ℝ := cumprodAux 1 l

/-- Source `scale_from_rates(origin, rates)`:
`np.cumprod(np.concatenate([[origin], rates]))`. -/
def scale_from_rates (origin : ℝ) (rates : List ℝ) : List ℝ :=
  cumprod (origin :: rates)

/-- Source class `ToneBasis`: stores the interval sizes in cents
(`self.intervals = np.array(intervals)`). -/
structure ToneBasis where
  intervals : List ℝ

/-- The cents-to-ratio conversion `2 ** (cents/1200)` used by
`ToneBasis.rates` and `Scale.set_note`. -/
noncomputable def rateOfCents (cents : ℝ) : ℝ := (2 : ℝ) ^ (cents / 1200)

/-- Source `ToneBasis.equidistant(n)`: intervals `1200/n * np.ones(n)`. -/
noncomputable def ToneBasis.equidistant (n : ℕ) : ToneBasis :=
  ⟨List.replicate n (1200 / (n : ℝ))⟩

/-- Source `ToneBasis.rates`: `2 ** (self.intervals/1200)` element-wise. -/
noncomputable def ToneBasis.rates (b : ToneBasis) : List ℝ :=
  b.intervals.map rateOfCents

/-- Source `ToneBasis.scale(origin)`: `scale_from_rates(origin, self.rates())`. -/
noncomputable def ToneBasis.scale (b : ToneBasis) (origin : ℝ) : List ℝ :=
  scale_from_rates origin b.rates

/-- Source class `Scale`: holds the note frequencies (`self.notes`). -/
structure Scale where
  notes : List ℝ

/-- Source `Scale.__init__(origin=None, rates=None, notes=None)`: if `notes`
is absent both `origin` and `rates` must be present (notes are then built by
`scale_from_rates`), and if `notes` is present both must be absent (notes are
then `np.array(notes)`); otherwise a `ValueError` is raised. -/
def Scale.make (origin : Option ℝ) (rates : Option (List ℝ))
    (notes : Option (List ℝ)) : Except String Scale :=
  match notes with
  | none =>
    match origin, rates with
    | some o, some r => Except.ok ⟨scale_from_rates o r⟩
    | _, _ => Except.error "both origin and rates must be given if notes not given"
  | some ns =>
    match origin, rates with
    | none, none => Except.ok ⟨ns⟩
    | _, _ => Except.error "origin and rates must be None if notes is given"

/-- Source `ToneBasis.to_scale(origin)`: `Scale(origin, self.rates())`. -/
noncomputable def ToneBasis.to_scale (b : ToneBasis) (origin : ℝ) :
    Except String Scale :=
  Scale.make (some origin) (some b.rates) none

/-- Source `Scale.rates`: `self.notes[1:] / self.notes[:-1]` element-wise,
on the note list of a scale. -/
noncomputable def ratesOf (notes : List ℝ) : List ℝ :=
  List.zipWith (fun a b => a / b) notes.tail notes.dropLast

/-- Source `Scale.rates` as a method. -/
noncomputable def Scale.rates (s : Scale) : List ℝ := ratesOf s.notes

/-- Source `Scale.intervals`: `1200 * np.log2(self.rates())`, on the note
list of a scale. -/
noncomputable def intervalsOf (notes : List ℝ) : List ℝ :=
  (ratesOf notes).map (fun r => 1200 * Real.logb 2 r)

/-- Source `Scale.intervals` as a method. -/
noncomputable def Scale.intervals (s : Scale) : List ℝ := intervalsOf s.notes

/-- Resolution of the Python expression `index - 1` as a numpy index when
`index : ℕ`: for `index = 0` it is `-1`, which numpy resolves to the last
position `len - 1` (negative-index wraparound); otherwise it is `index - 1`. -/
def predIdx (len index : ℕ) : ℕ := if index = 0 then len - 1 else index - 1

/-- Source `Scale.set_note(index, cents, reference)` acting on the note
list.  `rate = 2 ** (cents/1200)`; for `'current'` the entry at `index` is
multiplied by `rate`, for `'previous'` it is set to `notes[index-1] * rate`
(with numpy negative-index wraparound at `index = 0`), for `'origin'` to
`notes[0] * rate`; any other reference takes no branch and the list is
returned unchanged.  `none` models the `IndexError` numpy raises when
`index` is out of range. -/
noncomputable def setNote (notes : List ℝ) (index : ℕ) (cents : ℝ)
    (reference : String) : Option (List ℝ) :=
  let rate := rateOfCents cents
  if reference = "current" then
    if index < notes.length then
      some (notes.set index (notes.getD index 0 * rate))
    else none
  else if reference = "previous" then
    if index < notes.length then
      some (notes.set index (notes.getD (predIdx notes.length index) 0 * rate))
    else none
  else if reference = "origin" then
    if index < notes.length then
      some (notes.set index (notes.getD 0 0 * rate))
    else none
  else
    some notes

/-- Source `Scale.set_note` as a method: mutates the notes and returns the
scale itself. -/
noncomputable def Scale.set_note (s : Scale) (index : ℕ) (cents : ℝ)
    (reference : String) : Option Scale :=
  (setNote s.notes index cents reference).map Scale.mk

/-- Source `Scale.copy`: `Scale(notes=self.notes)` (value level). -/
def Scale.copy (s : Scale) : Scale := ⟨s.notes⟩

/-! Store model: numpy arrays live in a heap `Store` and a `Scale` object
holds the address of its notes array, so that sharing and copying of the
mutable array can be expressed. -/

/-- A heap of numpy arrays; an address is an index into `arrays`. -/
structure Store where
  arrays : List (List ℝ)

/-- Dereference an address. -/
def Store.read (st : Store) (a : ℕ) : List ℝ := st.arrays.getD a []

/-- Overwrite the array at an address (in-place numpy mutation). -/
def Store.write (st : Store) (a : ℕ) (v : List ℝ) : Store :=
  ⟨st.arrays.set a v⟩

/-- A `Scale` object: a reference to its notes array. -/
structure ScaleObj where
  addr : ℕ

/-- Construction mode (b) at the store level: `self.notes = np.array(notes)`
copies the given values into a freshly allocated array. -/
def Scale.fromNotesS (st : Store) (ns : List ℝ) : Store × ScaleObj :=
  (⟨st.arrays ++ [ns]⟩, ⟨st.arrays.length⟩)

/-- Source `Scale.copy` at the store level: `Scale(notes=self.notes)`. -/
def ScaleObj.copyS (st : Store) (s : ScaleObj) : Store × ScaleObj :=
  Scale.fromNotesS st (st.read s.addr)

/-- Source `Scale.set_note` at the store level: mutates the array behind the
object's address in place and returns the same object (`return self`). -/
noncomputable def ScaleObj.setNoteS (st : Store) (s : ScaleObj) (index : ℕ)
    (cents : ℝ) (reference : String) : Option (Store × ScaleObj) :=
  match setNote (st.read s.addr) index cents reference with
  | none => none
  | some ns => some (st.write s.addr ns, s)

/-! Closed form of the cumulative product. -/

theorem cumprodAux_eq (acc : ℝ) (l : List ℝ) :
    cumprodAux acc l =
      (List.range l.length).map (fun i => acc * ((l.take (i + 1)).prod)) := by
  induction l generalizing acc with
  | nil => simp [cumprodAux]
  | cons x xs ih =>
    simp only [cumprodAux, List.length_cons, List.range_succ_eq_map,
      List.map_cons, List.map_map, ih (acc * x)]
    refine List.cons_eq_cons.mpr ⟨by simp, ?_⟩
    apply List.map_congr_left
    intro i _
    simp [Function.comp, List.take_succ_cons, List.prod_cons]
    ring

/-- C3: `scale_from_rates f [r1, ..., rn]` is the list of length `n+1` whose
`i`-th element is `f · r1 · ... · ri`, i.e. the origin followed by the
running cumulative product of the ratios, in order. -/
theorem scale_from_rates_cumulative (f : ℝ) (rs : List ℝ) :
    scale_from_rates f rs =
      (List.range (rs.length + 1)).map (fun i => f * ((rs.take i).prod)) := by
  show cumprodAux 1 (f :: rs) = _
  rw [cumprodAux_eq]
  simp only [List.length_cons]
  apply List.map_congr_left
  intro i _
  simp [List.take_succ_cons, List.prod_cons]

/-! Helper lemmas. -/

theorem rateOfCents_zero : rateOfCents 0 = 1 := by
  rw [rateOfCents]
  norm_num

theorem rateOfCents_octave : rateOfCents 1200 = 2 := by
  rw [rateOfCents, show ((1200 : ℝ) / 1200) = 1 by norm_num, Real.rpow_one]

theorem rateOfCents_pos (c : ℝ) : 0 < rateOfCents c :=
  Real.rpow_pos_of_pos (by norm_num) _

theorem scale_from_rates_nil (f : ℝ) : scale_from_rates f [] = [f] := by
  simp [scale_from_rates, cumprod, cumprodAux]

theorem scale_from_rates_cons (f r : ℝ) (rs : List ℝ) :
    scale_from_rates f (r :: rs) = f :: scale_from_rates (f * r) rs := by
  simp [scale_from_rates, cumprod, cumprodAux]

theorem ratesOf_single (x : ℝ) : ratesOf [x] = [] := rfl

theorem ratesOf_cons_cons (x y : ℝ) (l : List ℝ) :
    ratesOf (x :: y :: l) = (y / x) :: ratesOf (y :: l) := by
  simp [ratesOf]

theorem getD_set_self {α : Type*} (l : List α) (i : ℕ) (v d : α)
    (h : i < l.length) : (l.set i v).getD i d = v := by
  rw [List.getD_eq_getElem?_getD, List.getElem?_set_eq_of_lt v h]
  rfl

theorem getD_set_ne {α : Type*} (l : List α) (i j : ℕ) (v d : α)
    (h : i ≠ j) : (l.set i v).getD j d = l.getD j d := by
  rw [List.getD_eq_getElem?_getD, List.getElem?_set_ne h,
    ← List.getD_eq_getElem?_getD]

/-- C4: the two construction modes of `Scale`: with `notes` absent both
`origin` and `rates` must be given (the notes are then the cumulative
build), and with `notes` given both must be absent (the notes are stored
verbatim); every other combination is rejected with a `ValueError` and no
scale object is produced. -/
theorem scale_construction_modes :
    (∀ (o : ℝ) (r : List ℝ),
      Scale.make (some o) (some r) none = Except.ok ⟨scale_from_rates o r⟩) ∧
    (∀ r : Option (List ℝ), Scale.make none r none =
      Except.error "both origin and rates must be given if notes not given") ∧
    (∀ o : Option ℝ, Scale.make o none none =
      Except.error "both origin and rates must be given if notes not given") ∧
    (∀ ns : List ℝ, Scale.make none none (some ns) = Except.ok ⟨ns⟩) ∧
    (∀ (o : ℝ) (r : Option (List ℝ)) (ns : List ℝ),
      Scale.make (some o) r (some ns) =
        Except.error "origin and rates must be None if notes is given") ∧
    (∀ (o : Option ℝ) (r : List ℝ) (ns : List ℝ),
      Scale.make o (some r) (some ns) =
        Except.error "origin and rates must be None if notes is given") := by
  refine ⟨fun o r => rfl, fun r => ?_, fun o => ?_, fun ns => rfl,
    fun o r ns => ?_, fun o r ns => ?_⟩
  · cases r <;> rfl
  · cases o <;> rfl
  · cases r <;> rfl
  · cases o <;> rfl

/-- C9: `set_note` with a reference outside current/previous/origin takes
no branch: the note list is returned unchanged and the scale itself is
still returned. -/
theorem set_note_unrecognized (s : Scale) (i : ℕ) (c : ℝ) (r : String)
    (h1 : r ≠ "current") (h2 : r ≠ "previous") (h3 : r ≠ "origin") :
    s.set_note i c r = some s ∧ setNote s.notes i c r = some s.notes := by
  constructor
  · simp [Scale.set_note, setNote, h1, h2, h3]
  · simp [setNote, h1, h2, h3]

/-- Witness for C9 at a concrete scale and reference. -/
theorem set_note_unrecognized_attest :
    Scale.set_note ⟨[(440 : ℝ)]⟩ 0 50 "midpoint" = some ⟨[(440 : ℝ)]⟩ :=
  (set_note_unrecognized ⟨[(440 : ℝ)]⟩ 0 50 "midpoint" (by decide) (by decide)
    (by decide)).1

/-- C1, counterexample: `Scale(notes=[440]).set_note(0, 100, 'previous')`
does not raise an out-of-range error: `notes[0-1]` is `notes[-1]`, which
numpy resolves to the last element, so the call succeeds and changes
`notes[0]` to `440 · 2^(100/1200) ≠ 440`. -/
theorem set_note_zero_previous_no_error :
    setNote [(440 : ℝ)] 0 100 "previous" = some [(440 : ℝ) * rateOfCents 100] ∧
    (440 : ℝ) * rateOfCents 100 ≠ 440 := by
  constructor
  · rfl
  · have h1 : (1 : ℝ) < rateOfCents 100 := by
      rw [rateOfCents, Real.one_lt_rpow_iff_of_pos (by norm_num)]
      left
      constructor <;> norm_num
    intro hc
    nlinarith

/-- C1, amended: `set_note(0, cents, 'previous')` on a non-empty scale does
not fail; by numpy negative-index wraparound it sets `notes[0]` to
`notes[len-1] · 2^(cents/1200)`, the last note standing in for the missing
predecessor. -/
theorem set_note_zero_previous_wraps (notes : List ℝ) (c : ℝ)
    (h : notes ≠ []) :
    setNote notes 0 c "previous" =
      some (notes.set 0 (notes.getD (notes.length - 1) 0 * rateOfCents c)) := by
  have hlen : 0 < notes.length := List.length_pos.mpr h
  simp [setNote, predIdx, hlen]

/-- Witness for the amended C1 on the spec's concrete input. -/
theorem set_note_zero_previous_wraps_attest :
    setNote [(440 : ℝ)] 0 100 "previous" =
      some [(440 : ℝ) * rateOfCents 100] := by
  have h := set_note_zero_previous_wraps [(440 : ℝ)] 100 (by simp)
  simpa using h

/-- C6: `ToneBasis.rates` has the same length as the interval list and maps
the `i`-th cents value `c` to `2^(c/1200)`; in particular 1200 cents maps
to the ratio 2. -/
theorem tonebasis_rates_pointwise (b : ToneBasis) :
    b.rates.length = b.intervals.length ∧
    (∀ i : Fin b.intervals.length,
      b.rates.getD i 0 = (2 : ℝ) ^ ((b.intervals.getD i 0) / 1200)) ∧
    rateOfCents 1200 = 2 := by
  refine ⟨by simp [ToneBasis.rates], fun i => ?_, rateOfCents_octave⟩
  have hi : (i : ℕ) < b.intervals.length := i.isLt
  rw [ToneBasis.rates, List.getD_eq_getElem _ _ (by simp),
    List.getD_eq_getElem _ _ hi, List.getElem_map]
  rfl

theorem predIdx_of_pos (len i : ℕ) (h : 1 ≤ i) : predIdx len i = i - 1 := by
  rw [predIdx, if_neg (by omega)]

/-- C5: for a valid index, `set_note` with `'current'` multiplies
`notes[i]` by `2^(c/1200)`, with `'previous'` (for `i ≥ 1`) sets it to
`notes[i-1] · 2^(c/1200)`, with `'origin'` to `notes[0] · 2^(c/1200)`;
only that one element changes, the call returns the scale object itself,
and the spec's concrete scenarios on `[100, 200, 400]` hold. -/
theorem set_note_reference_semantics (notes : List ℝ) (i : ℕ) (c : ℝ)
    (hi : i < notes.length) :
    (∃ ns, setNote notes i c "current" = some ns ∧ ns.length = notes.length ∧
      ns.getD i 0 = notes.getD i 0 * rateOfCents c ∧
      ∀ j, j ≠ i → ns.getD j 0 = notes.getD j 0) ∧
    (1 ≤ i → ∃ ns, setNote notes i c "previous" = some ns ∧
      ns.length = notes.length ∧
      ns.getD i 0 = notes.getD (i - 1) 0 * rateOfCents c ∧
      ∀ j, j ≠ i → ns.getD j 0 = notes.getD j 0) ∧
    (∃ ns, setNote notes i c "origin" = some ns ∧ ns.length = notes.length ∧
      ns.getD i 0 = notes.getD 0 0 * rateOfCents c ∧
      ∀ j, j ≠ i → ns.getD j 0 = notes.getD j 0) ∧
    (∀ (st : Store) (s : ScaleObj) (r : String) (p : Store × ScaleObj),
      ScaleObj.setNoteS st s i c r = some p → p.2 = s) ∧
    setNote [(100 : ℝ), 200, 400] 2 0 "previous" = some [100, 200, 200] ∧
    setNote [(100 : ℝ), 200, 400] 2 1200 "origin" = some [100, 200, 200] ∧
    setNote [(100 : ℝ), 200, 400] 1 1200 "current" = some [100, 400, 400] := by
  refine ⟨⟨notes.set i (notes.getD i 0 * rateOfCents c), ?_, ?_, ?_, ?_⟩,
    fun h1 => ⟨notes.set i (notes.getD (i - 1) 0 * rateOfCents c), ?_, ?_, ?_, ?_⟩,
    ⟨notes.set i (notes.getD 0 0 * rateOfCents c), ?_, ?_, ?_, ?_⟩,
    ?_, ?_, ?_, ?_⟩
  · simp [setNote, hi]
  · exact List.length_set notes i _
  · exact getD_set_self notes i _ 0 hi
  · exact fun j hj => getD_set_ne notes i j _ 0 (Ne.symm hj)
  · simp [setNote, hi, predIdx_of_pos notes.length i h1]
  · exact List.length_set notes i _
  · exact getD_set_self notes i _ 0 hi
  · exact fun j hj => getD_set_ne notes i j _ 0 (Ne.symm hj)
  · simp [setNote, hi]
  · exact List.length_set notes i _
  · exact getD_set_self notes i _ 0 hi
  · exact fun j hj => getD_set_ne notes i j _ 0 (Ne.symm hj)
  · intro st s r p hp
    cases hsn : setNote (st.read s.addr) i c r with
    | none =>
      rw [ScaleObj.setNoteS, hsn] at hp
      exact absurd hp (by simp)
    | some ns =>
      rw [ScaleObj.setNoteS, hsn] at hp
      have h2 : (st.write s.addr ns, s) = p := Option.some.inj hp
      rw [← h2]
  · rw [show setNote [(100 : ℝ), 200, 400] 2 0 "previous" =
      some [100, 200, 200 * rateOfCents 0] from rfl, rateOfCents_zero]
    norm_num
  · rw [show setNote [(100 : ℝ), 200, 400] 2 1200 "origin" =
      some [100, 200, 100 * rateOfCents 1200] from rfl, rateOfCents_octave]
    norm_num
  · rw [show setNote [(100 : ℝ), 200, 400] 1 1200 "current" =
      some [100, 200 * rateOfCents 1200, 400] from rfl, rateOfCents_octave]
    norm_num

/-- Witness for C5: the `'current'` scenario of the spec, via the theorem
at notes `[100, 200, 400]`, index 1, 1200 cents. -/
theorem set_note_reference_semantics_attest :
    setNote [(100 : ℝ), 200, 400] 1 1200 "current" = some [100, 400, 400] :=
  (set_note_reference_semantics [(100 : ℝ), 200, 400] 1 1200
    (by norm_num)).2.2.2.2.2.2

theorem scale_from_rates_head (f : ℝ) (rs : List ℝ) :
    ∃ t, scale_from_rates f rs = f :: t := by
  cases rs with
  | nil => exact ⟨[], scale_from_rates_nil f⟩
  | cons r rs => exact ⟨_, scale_from_rates_cons f r rs⟩

theorem ratesOf_scale_from_rates (rs : List ℝ) :
    ∀ f : ℝ, f ≠ 0 → (∀ r ∈ rs, r ≠ 0) →
      ratesOf (scale_from_rates f rs) = rs := by
  induction rs with
  | nil =>
    intro f _ _
    rw [scale_from_rates_nil, ratesOf_single]
  | cons r rs ih =>
    intro f hf h
    rw [scale_from_rates_cons]
    obtain ⟨t, ht⟩ := scale_from_rates_head (f * r) rs
    have hr : r ≠ 0 := h r (by simp)
    rw [ht, ratesOf_cons_cons, ← ht,
      ih (f * r) (mul_ne_zero hf hr) (fun a ha => h a (List.mem_cons_of_mem r ha)),
      mul_div_cancel_left₀ r hf]

/-- C2: `B.to_scale(f).intervals()` recovers `B.intervals` exactly, for any
tone basis and any positive origin: the cents-to-ratio mapping, the
cumulative product and the ratio-to-cents mapping compose to the identity
on the interval list. -/
theorem tonebasis_roundtrip (b : ToneBasis) (f : ℝ) (hf : 0 < f) (s : Scale)
    (hs : b.to_scale f = Except.ok s) : s.intervals = b.intervals := by
  have hok : Except.ok (⟨scale_from_rates f b.rates⟩ : Scale) = Except.ok s := hs
  have hs' : s = ⟨scale_from_rates f b.rates⟩ := (Except.ok.inj hok).symm
  subst hs'
  show intervalsOf (scale_from_rates f b.rates) = b.intervals
  have hnz : ∀ r ∈ b.rates, r ≠ 0 := by
    intro r hr
    rw [ToneBasis.rates] at hr
    obtain ⟨c, _, rfl⟩ := List.mem_map.mp hr
    exact ne_of_gt (rateOfCents_pos c)
  rw [intervalsOf, ratesOf_scale_from_rates b.rates f (ne_of_gt hf) hnz,
    ToneBasis.rates, List.map_map]
  have hcong : ∀ x ∈ b.intervals,
      ((fun r => 1200 * Real.logb 2 r) ∘ rateOfCents) x = id x := by
    intro x _
    show 1200 * Real.logb 2 (rateOfCents x) = x
    rw [rateOfCents, Real.logb_rpow (by norm_num) (by norm_num)]
    field_simp
  rw [List.map_congr_left hcong, List.map_id]

/-- Witness for C2 on the one-octave basis at origin 440. -/
theorem tonebasis_roundtrip_attest :
    (0 : ℝ) < 440 ∧
    Scale.intervals ⟨scale_from_rates 440 (ToneBasis.rates ⟨[(1200 : ℝ)]⟩)⟩ =
      [(1200 : ℝ)] :=
  ⟨by norm_num, tonebasis_roundtrip ⟨[(1200 : ℝ)]⟩ 440 (by norm_num)
    ⟨scale_from_rates 440 (ToneBasis.rates ⟨[(1200 : ℝ)]⟩)⟩ rfl⟩

/-- C7: `equidistant n` for `n ≥ 1` has exactly `n` intervals, each
`1200/n` cents; its rates are `n` copies of `2^(1/n)` and their product is
exactly 2. -/
theorem equidistant_equal_division (n : ℕ) (h : 1 ≤ n) :
    (ToneBasis.equidistant n).intervals.length = n ∧
    (∀ c ∈ (ToneBasis.equidistant n).intervals, c = 1200 / (n : ℝ)) ∧
    (ToneBasis.equidistant n).rates =
      List.replicate n ((2 : ℝ) ^ ((n : ℝ)⁻¹)) ∧
    (ToneBasis.equidistant n).rates.prod = 2 := by
  have hn : (n : ℝ) ≠ 0 := Nat.cast_ne_zero.mpr (by omega)
  have hrate : rateOfCents (1200 / (n : ℝ)) = (2 : ℝ) ^ ((n : ℝ)⁻¹) := by
    rw [rateOfCents, div_right_comm, show ((1200 : ℝ) / 1200) = 1 by norm_num,
      one_div]
  have hrates : (ToneBasis.equidistant n).rates =
      List.replicate n ((2 : ℝ) ^ ((n : ℝ)⁻¹)) := by
    rw [ToneBasis.rates, ToneBasis.equidistant, List.map_replicate, hrate]
  refine ⟨by simp [ToneBasis.equidistant], ?_, hrates, ?_⟩
  · intro c hc
    rw [ToneBasis.equidistant] at hc
    exact List.eq_of_mem_replicate hc
  · rw [hrates, List.prod_replicate,
      ← Real.rpow_natCast ((2 : ℝ) ^ ((n : ℝ)⁻¹)) n,
      ← Real.rpow_mul (by norm_num), inv_mul_cancel₀ hn, Real.rpow_one]

/-- Witness for C7 at the usual 12-tone equal division. -/
theorem equidistant_equal_division_attest :
    1 ≤ 12 ∧ (ToneBasis.equidistant 12).rates.prod = 2 :=
  ⟨by norm_num, (equidistant_equal_division 12 (by norm_num)).2.2.2⟩

/-- C10: a non-empty list of positive notes is recovered from its head and
its consecutive quotients: `scale_from_rates(ns[0], Scale(notes=ns).rates())`
telescopes back to `ns` exactly. -/
theorem notes_roundtrip (x : ℝ) (l : List ℝ) (hpos : ∀ a ∈ x :: l, 0 < a) :
    scale_from_rates x (Scale.rates ⟨x :: l⟩) = x :: l := by
  show scale_from_rates x (ratesOf (x :: l)) = x :: l
  induction l generalizing x with
  | nil => rw [ratesOf_single, scale_from_rates_nil]
  | cons y l ih =>
    have hx : x ≠ 0 := ne_of_gt (hpos x (by simp))
    have hxy : x * (y / x) = y := by field_simp
    rw [ratesOf_cons_cons, scale_from_rates_cons, hxy,
      ih y (fun a ha => hpos a (List.mem_cons_of_mem x ha))]

/-- Witness for C10 on the notes `[100, 200, 400]`. -/
theorem notes_roundtrip_attest :
    scale_from_rates 100 (Scale.rates ⟨[(100 : ℝ), 200, 400]⟩) =
      [(100 : ℝ), 200, 400] :=
  notes_roundtrip 100 [200, 400] (by norm_num [List.forall_mem_cons])

/-- C8: `copy()` duplicates the note array into fresh storage: the copy's
notes read equal to the source's notes, any successful `set_note` on the
copy leaves the source's array untouched, and any successful `set_note` on
the source leaves the copy's array untouched. -/
theorem copy_independent (st : Store) (s1 : ScaleObj)
    (h : s1.addr < st.arrays.length) (i : ℕ) (c : ℝ) (ref : String) :
    Store.read (ScaleObj.copyS st s1).1 (ScaleObj.copyS st s1).2.addr =
      st.read s1.addr ∧
    (∀ st2 s3, ScaleObj.setNoteS (ScaleObj.copyS st s1).1
        (ScaleObj.copyS st s1).2 i c ref = some (st2, s3) →
      st2.read s1.addr = st.read s1.addr) ∧
    (∀ st2 s3, ScaleObj.setNoteS (ScaleObj.copyS st s1).1 s1 i c ref =
        some (st2, s3) →
      st2.read (ScaleObj.copyS st s1).2.addr = st.read s1.addr) := by
  have hread1 : Store.read ⟨st.arrays ++ [st.read s1.addr]⟩ st.arrays.length =
      st.read s1.addr := by
    show (st.arrays ++ [st.read s1.addr]).getD st.arrays.length [] =
      st.read s1.addr
    rw [List.getD_append_right st.arrays _ _ _ le_rfl]
    simp
  have hread2 : Store.read ⟨st.arrays ++ [st.read s1.addr]⟩ s1.addr =
      st.read s1.addr := by
    show (st.arrays ++ [st.read s1.addr]).getD s1.addr [] = st.read s1.addr
    rw [List.getD_append st.arrays _ _ _ h]
    rfl
  refine ⟨hread1, ?_, ?_⟩
  · intro st2 s3 hset
    have hset' : ScaleObj.setNoteS ⟨st.arrays ++ [st.read s1.addr]⟩
        ⟨st.arrays.length⟩ i c ref = some (st2, s3) := hset
    cases hsn : setNote (Store.read ⟨st.arrays ++ [st.read s1.addr]⟩
        st.arrays.length) i c ref with
    | none =>
      rw [ScaleObj.setNoteS, hsn] at hset'
      exact absurd hset' (by simp)
    | some ns =>
      rw [ScaleObj.setNoteS, hsn] at hset'
      have h2 := Option.some.inj hset'
      have hst2 : st2 = Store.write ⟨st.arrays ++ [st.read s1.addr]⟩
          st.arrays.length ns := (congrArg Prod.fst h2).symm
      rw [hst2]
      show ((st.arrays ++ [st.read s1.addr]).set st.arrays.length ns).getD
        s1.addr [] = st.read s1.addr
      rw [getD_set_ne _ _ _ _ _ (by omega)]
      exact hread2
  · intro st2 s3 hset
    have hset' : ScaleObj.setNoteS ⟨st.arrays ++ [st.read s1.addr]⟩ s1 i c ref =
        some (st2, s3) := hset
    cases hsn : setNote (Store.read ⟨st.arrays ++ [st.read s1.addr]⟩
        s1.addr) i c ref with
    | none =>
      rw [ScaleObj.setNoteS, hsn] at hset'
      exact absurd hset' (by simp)
    | some ns =>
      rw [ScaleObj.setNoteS, hsn] at hset'
      have h2 := Option.some.inj hset'
      have hst2 : st2 = Store.write ⟨st.arrays ++ [st.read s1.addr]⟩
          s1.addr ns := (congrArg Prod.fst h2).symm
      rw [hst2]
      show ((st.arrays ++ [st.read s1.addr]).set s1.addr ns).getD
        st.arrays.length [] = st.read s1.addr
      rw [getD_set_ne _ _ _ _ _ (by omega)]
      exact hread1

/-- Witness for C8: a one-scale store holding `[100, 200, 400]`. -/
theorem copy_independent_attest :
    (ScaleObj.mk 0).addr < (Store.mk [[(100 : ℝ), 200, 400]]).arrays.length ∧
    Store.read (ScaleObj.copyS (Store.mk [[(100 : ℝ), 200, 400]])
        (ScaleObj.mk 0)).1
      (ScaleObj.copyS (Store.mk [[(100 : ℝ), 200, 400]]) (ScaleObj.mk 0)).2.addr =
      Store.read (Store.mk [[(100 : ℝ), 200, 400]]) 0 :=
  ⟨by simp, (copy_independent (Store.mk [[(100 : ℝ), 200, 400]])
    (ScaleObj.mk 0) (by simp) 1 100 "current").1⟩

end Scales
